import Mathlib

/-!
Verification of the Bitkit iOS bridging-header fragment and of the
Noise-protocol secure-channel core that its specification describes.

Part 1 embeds `src/Bitkit/PaykitIntegration/Bitkit-Bridging-Header.h`
both as verbatim text and as structured preprocessor lines, together
with a small model of the C preprocessor (single-level include guards),
and proves the claims about the header itself.

Part 2 models, from the specification, the Noise handshake and
transport engine (CipherState, SymmetricState, HandshakeState,
Pattern Engine) that the FFI headers front for, and proves the
spec's testable properties about it.
-/

set_option autoImplicit false

namespace Bitkit

/-- One line of a C header, in the structured form relevant to the
preprocessor: a `//` comment, a blank line, the two halves of an
include guard, an `#include "…"` directive, or `#endif` (with its
trailing comment text). -/
inductive SrcLine where
  | comment (text : String)
  | blank
  | guardBegin (name : String)
  | guardDefine (name : String)
  | inc (path : String)
  | guardEnd (trailing : String)
deriving DecidableEq, Repr

/-- Structured transcription of
`src/Bitkit/PaykitIntegration/Bitkit-Bridging-Header.h` (19 lines). -/
def bridgingHeader : List SrcLine :=
  [ .comment "//",
    .comment "//  Bitkit-Bridging-Header.h",
    .comment "//  Bitkit",
    .comment "//",
    .comment "//  Bridging header for Paykit FFI integration",
    .comment "//",
    .blank,
    .guardBegin "Bitkit_Bridging_Header_h",
    .guardDefine "Bitkit_Bridging_Header_h",
    .blank,
    .comment "// Import PaykitMobile FFI types",
    .inc "paykit_mobileFFI.h",
    .blank,
    .comment "// Import PubkyNoise FFI types",
    .comment "// The correct header is found via HEADER_SEARCH_PATHS which are conditionally",
    .comment "// set for device (ios-arm64) vs simulator (ios-arm64_x86_64-simulator)",
    .inc "pubky_noiseFFI.h",
    .blank,
    .guardEnd "/* Bitkit_Bridging_Header_h */" ]

/-- Render a structured line back to its source text. -/
def renderLine : SrcLine → String
  | .comment t => t
  | .blank => ""
  | .guardBegin n => "#ifndef " ++ n
  | .guardDefine n => "#define " ++ n
  | .inc p => "#include \"" ++ p ++ "\""
  | .guardEnd t => "#endif " ++ t

/-- The verbatim text of
`src/Bitkit/PaykitIntegration/Bitkit-Bridging-Header.h`, line by line. -/
def bridgingHeaderText : List String :=
  [ "//",
    "//  Bitkit-Bridging-Header.h",
    "//  Bitkit",
    "//",
    "//  Bridging header for Paykit FFI integration",
    "//",
    "",
    "#ifndef Bitkit_Bridging_Header_h",
    "#define Bitkit_Bridging_Header_h",
    "",
    "// Import PaykitMobile FFI types",
    "#include \"paykit_mobileFFI.h\"",
    "",
    "// Import PubkyNoise FFI types",
    "// The correct header is found via HEADER_SEARCH_PATHS which are conditionally",
    "// set for device (ios-arm64) vs simulator (ios-arm64_x86_64-simulator)",
    "#include \"pubky_noiseFFI.h\"",
    "",
    "#endif /* Bitkit_Bridging_Header_h */" ]

/-- The structured transcription renders to exactly the verbatim file text. -/
theorem bridgingHeader_renders : bridgingHeader.map renderLine = bridgingHeaderText := by
  rfl

/-- `strHasPre p s` holds when string `p` is an initial segment of `s`. -/
def strHasPre (p s : String) : Bool :=
  p.data.isPrefixOf s.data

/-- A `//` comment line. -/
def isCommentLine (s : String) : Bool :=
  strHasPre "//" s

/-- An empty line. -/
def isBlankLine (s : String) : Bool :=
  s.data = []

/-- A preprocessor line of one of the four kinds that appear in an
include-guarded aggregation header. -/
def isGuardOrIncDirective (s : String) : Bool :=
  strHasPre "#ifndef " s || strHasPre "#define " s ||
    strHasPre "#include " s || strHasPre "#endif" s

/-- A line that contributes no C declaration or definition to the
translation unit: a comment, a blank line, or a guard/include directive. -/
def lineIsInert (s : String) : Bool :=
  isCommentLine s || isBlankLine s || isGuardOrIncDirective s

/-! ### A single-level include-guard preprocessor model

State: the list of object-like macros defined so far, and whether we are
currently skipping (inside a failed `#ifndef`).  Output: the paths of the
`#include` directives actually emitted. -/

/-- Process one structured line: update `(macros, skipping)` and emit the
includes produced by this line. -/
def ppStep : List String × Bool → SrcLine → (List String × Bool) × List String
  | (macros, skip), .guardBegin n =>
      if skip then ((macros, skip), [])
      else ((macros, macros.contains n), [])
  | (macros, skip), .guardDefine n =>
      if skip then ((macros, skip), []) else ((macros ++ [n], skip), [])
  | (macros, skip), .inc p =>
      if skip then ((macros, skip), []) else ((macros, skip), [p])
  | (macros, _), .guardEnd _ => ((macros, false), [])
  | st, .comment _ => (st, [])
  | st, .blank => (st, [])

/-- Process a list of structured lines from a given preprocessor state,
returning the final state and the concatenated emitted includes. -/
def ppProcess : List String × Bool → List SrcLine → (List String × Bool) × List String
  | st, [] => (st, [])
  | st, l :: ls =>
      let r := ppStep st l
      let rs := ppProcess r.1 ls
      (rs.1, r.2 ++ rs.2)

/-- The includes emitted by processing `lines` in a fresh translation unit. -/
def includesEmitted (lines : List SrcLine) : List String :=
  (ppProcess ([], false) lines).2

/-- Processing a concatenation splits into processing the two halves. -/
theorem ppProcess_append (st : List String × Bool) (xs ys : List SrcLine) :
    ppProcess st (xs ++ ys) =
      ((ppProcess (ppProcess st xs).1 ys).1,
        (ppProcess st xs).2 ++ (ppProcess (ppProcess st xs).1 ys).2) := by
  induction xs generalizing st with
  | nil => simp [ppProcess]
  | cons l ls ih =>
      simp [ppProcess, ih (ppStep st l).1, List.append_assoc]

/-- First pass over the header: defines the guard macro and emits the two
FFI includes. -/
theorem ppProcess_first :
    ppProcess ([], false) bridgingHeader =
      ((["Bitkit_Bridging_Header_h"], false),
        ["paykit_mobileFFI.h", "pubky_noiseFFI.h"]) := by
  rfl

/-- Any later pass over the header (guard already defined) emits nothing and
leaves the state unchanged. -/
theorem ppProcess_again :
    ppProcess (["Bitkit_Bridging_Header_h"], false) bridgingHeader =
      ((["Bitkit_Bridging_Header_h"], false), []) := by
  rfl

/-- The preprocessed result of including the header `n` times in one
translation unit. -/
def includeTimes (n : Nat) : (List String × Bool) × List String :=
  ppProcess ([], false) (List.flatten (List.replicate n bridgingHeader))

/-- Repeated passes after the first are inert. -/
theorem ppProcess_replicate (n : Nat) :
    ppProcess (["Bitkit_Bridging_Header_h"], false)
        (List.flatten (List.replicate n bridgingHeader)) =
      ((["Bitkit_Bridging_Header_h"], false), []) := by
  induction n with
  | zero => rfl
  | succ k ih =>
      rw [List.replicate_succ, List.flatten_cons, ppProcess_append, ppProcess_again]
      simp [ih]

/-! ### The three copies of the bridging header

Only the direct-project copy is present under `src/`.  The other two
copies are modelled from the spec, which states that the only variation
across the three file copies is the search path used to locate the same
two headers (direct project path, packaged-framework path, and
build-tool-generated path). -/

/-- The last path component of a slash-separated include path. -/
def baseName (s : String) : String :=
  String.mk (s.data.foldl (fun acc c => if c = '/' then [] else acc ++ [c]) [])

/-- Normalize a structured line by reducing any include path to its base
name, erasing the search-path variation. -/
def lineBaseName : SrcLine → SrcLine
  | .inc p => .inc (baseName p)
  | l => l

/-- The direct-project-path copy: the file under
`src/Bitkit/PaykitIntegration/Bitkit-Bridging-Header.h`. -/
def bridgingHeaderCopyDirect : List SrcLine :=
  bridgingHeader

/-- Modelled from the spec: the packaged-framework copy of the bridging
header, identical except that the two includes are located through the
packaged xcframework header directories. -/
def bridgingHeaderCopyFramework : List SrcLine :=
  bridgingHeader.map fun l =>
    match l with
    | .inc "paykit_mobileFFI.h" => .inc "PaykitMobile.xcframework/Headers/paykit_mobileFFI.h"
    | .inc "pubky_noiseFFI.h" => .inc "PubkyNoise.xcframework/Headers/pubky_noiseFFI.h"
    | x => x

/-- Modelled from the spec: the build-tool-generated copy of the bridging
header, identical except that the two includes are located through the
build tool's generated-sources directory. -/
def bridgingHeaderCopyGenerated : List SrcLine :=
  bridgingHeader.map fun l =>
    match l with
    | .inc "paykit_mobileFFI.h" => .inc "generated/paykit_mobileFFI.h"
    | .inc "pubky_noiseFFI.h" => .inc "generated/pubky_noiseFFI.h"
    | x => x

/-- The repository fragment: the three copies of the bridging header. -/
def fragmentCopies : List (List SrcLine) :=
  [bridgingHeaderCopyDirect, bridgingHeaderCopyFramework, bridgingHeaderCopyGenerated]

end Bitkit

namespace Bitkit

/-- C1: Every line of the bridging header is a comment, a blank line, or a
guard/include preprocessor directive; the only `#define` is the include
guard's macro (matching the single `#ifndef`), so the file declares and
defines nothing itself. -/
theorem bridgingHeader_contains_no_declarations :
    bridgingHeaderText.all lineIsInert = true ∧
    bridgingHeaderText.filter (fun s => strHasPre "#define " s) =
      ["#define Bitkit_Bridging_Header_h"] ∧
    bridgingHeaderText.filter (fun s => strHasPre "#ifndef " s) =
      ["#ifndef Bitkit_Bridging_Header_h"] := by
  refine ⟨by decide, by decide, by decide⟩

/-- C2: The fragment comprises exactly three copies of the bridging header,
and after erasing the search-path portion of each include path the three
copies are identical, each including exactly the two FFI headers
`paykit_mobileFFI.h` and `pubky_noiseFFI.h`. -/
theorem fragment_three_copies_vary_only_in_search_path :
    fragmentCopies.length = 3 ∧
    fragmentCopies.all
      (fun c => decide (c.map lineBaseName = bridgingHeader.map lineBaseName)) = true ∧
    fragmentCopies.all
      (fun c => decide ((includesEmitted c).map baseName =
        ["paykit_mobileFFI.h", "pubky_noiseFFI.h"])) = true := by
  refine ⟨rfl, by decide, by decide⟩

/-- C9: Including the bridging header is idempotent inside one translation
unit: thanks to the `Bitkit_Bridging_Header_h` include guard, including it
`n + 1` times produces the same preprocessor state and the same emitted
includes as including it once. -/
theorem bridgingHeader_inclusion_idempotent (n : Nat) :
    includeTimes (n + 1) = includeTimes 1 := by
  have h1 : includeTimes 1 = ppProcess ([], false) bridgingHeader := by
    simp [includeTimes]
  rw [includeTimes, List.replicate_succ, List.flatten_cons, ppProcess_append,
    ppProcess_first]
  simp [ppProcess_replicate, h1, ppProcess_first]

/-- Witness for C9: three inclusions preprocess identically to one. -/
theorem bridgingHeader_inclusion_idempotent_witness :
    includeTimes 3 = includeTimes 1 :=
  bridgingHeader_inclusion_idempotent 2

/-- C10: On first inclusion the bridging header emits exactly the two
includes `paykit_mobileFFI.h` then `pubky_noiseFFI.h`, in that order, and
the only conditional directive in the file is the include guard's
`#ifndef` — no inclusion is guarded by a platform or configuration
conditional. -/
theorem bridgingHeader_first_inclusion_includes_two_headers :
    includesEmitted bridgingHeader = ["paykit_mobileFFI.h", "pubky_noiseFFI.h"] ∧
    bridgingHeaderText.filter (fun s => strHasPre "#if" s) =
      ["#ifndef Bitkit_Bridging_Header_h"] := by
  refine ⟨rfl, by decide⟩

end Bitkit

namespace Noise

/-- Modelled from the spec: the error taxonomy of the secure-channel core
(§7) — `UnknownPattern`, `MissingKey`, `OutOfOrder`, `DecryptFailure`,
`NonceExhausted`, `HandshakeComplete`. -/
inductive NoiseError where
  | UnknownPattern
  | MissingKey
  | OutOfOrder
  | DecryptFailure
  | NonceExhausted
  | HandshakeComplete
deriving DecidableEq, Repr

/-! ### Cryptographic primitive suite

Modelled from the spec (§4.2): a pluggable Diffie-Hellman function, AEAD
cipher and hash, all pure and value-returning.  The concrete instantiation
uses modular exponentiation for DH and an xor-masking AEAD with an appended
authentication tag, which realizes the algebraic contracts the spec relies
on (DH symmetry, AEAD invertibility, fail-closed tag check). -/

/-- Modulus of the model Diffie-Hellman group. -/
def dhPrime : Nat := 101

/-- Generator of the model Diffie-Hellman group. -/
def dhGen : Nat := 2

/-- Public key corresponding to a private scalar. -/
def pubkey (a : Nat) : Nat := dhGen ^ a % dhPrime

/-- Modelled from the spec: `DH(privkey, pubkey) → shared secret`. -/
def dh (a bPub : Nat) : Nat := bPub ^ a % dhPrime

/-- The shared secret of two private scalars, in symmetric form. -/
def dhShared (a b : Nat) : Nat := dhGen ^ (a * b) % dhPrime

/-- DH applied to the peer's public key yields the symmetric shared secret. -/
theorem dh_pubkey (a b : Nat) : dh a (pubkey b) = dhShared a b := by
  unfold dh pubkey dhShared
  rw [← Nat.pow_mod, ← pow_mul, Nat.mul_comm b a]

/-- The shared secret does not depend on which party computes it. -/
theorem dhShared_comm (a b : Nat) : dhShared a b = dhShared b a := by
  unfold dhShared
  rw [Nat.mul_comm a b]

/-- Modelled from the spec: the hash function of the primitive suite,
used as a two-input compression step (64-bit digest). -/
def hashMix (a b : Nat) : Nat := ((2 * a + 3) * (2 * b + 5) + b) % 2 ^ 64

/-- Modelled from the spec: the HKDF-style mix producing the `i`-th output
block from a chaining key and input key material. -/
def hkdfOut (i ck ikm : Nat) : Nat := hashMix (hashMix ck i) ikm

/-- The `i`-th keystream byte of the model AEAD cipher. -/
def ksByte (key nonce i : Nat) : Nat := hashMix (hashMix key nonce) i % 256

/-- Xor-mask a byte sequence with the keystream starting at position `i`. -/
def maskBytes (key nonce : Nat) : Nat → List Nat → List Nat
  | _, [] => []
  | i, b :: bs => (b ^^^ ksByte key nonce i) :: maskBytes key nonce (i + 1) bs

/-- Authentication tag over associated data and ciphertext. -/
def authTag (key nonce : Nat) (ad ct : List Nat) : Nat :=
  hashMix (hashMix (hashMix key nonce) (ad.foldl hashMix 7)) (ct.foldl hashMix 11)

/-- Modelled from the spec: `AEAD-encrypt(key, nonce, ad, plaintext) →
ciphertext` (masked body followed by the authentication tag). -/
def aeadEncrypt (key nonce : Nat) (ad pt : List Nat) : List Nat :=
  let ct := maskBytes key nonce 0 pt
  ct ++ [authTag key nonce ad ct]

/-- Modelled from the spec: `AEAD-decrypt(key, nonce, ad, ciphertext) →
plaintext or failure`; fails closed on a tag mismatch, revealing nothing. -/
def aeadDecrypt (key nonce : Nat) (ad ct : List Nat) : Option (List Nat) :=
  match ct.getLast? with
  | none => none
  | some t =>
      let body := ct.dropLast
      if t = authTag key nonce ad body then some (maskBytes key nonce 0 body)
      else none

/-- Masking is involutive at every keystream offset. -/
theorem maskBytes_maskBytes (key nonce : Nat) :
    ∀ (i : Nat) (pt : List Nat), maskBytes key nonce i (maskBytes key nonce i pt) = pt := by
  intro i pt
  induction pt generalizing i with
  | nil => rfl
  | cons b bs ih =>
      simp [maskBytes, Nat.xor_cancel_right, ih]

/-- AEAD round trip: decrypting an encryption with the same key, nonce and
associated data recovers the plaintext. -/
theorem aeadDecrypt_aeadEncrypt (key nonce : Nat) (ad pt : List Nat) :
    aeadDecrypt key nonce ad (aeadEncrypt key nonce ad pt) = some pt := by
  unfold aeadEncrypt aeadDecrypt
  simp [List.getLast?_concat, List.dropLast_concat, maskBytes_maskBytes]

/-! ### CipherState -/

/-- Modelled from the spec: a CipherState owns a symmetric key and a 64-bit
nonce counter (§3); the nonce is monotonically increasing and a (key, nonce)
pair is never reused. -/
structure CipherState where
  key : Nat
  nonce : Nat
deriving DecidableEq, Repr

/-- The largest representable nonce, `2 ^ 64 - 1`; reaching it exhausts the
CipherState. -/
def maxNonce : Nat := 2 ^ 64 - 1

/-- Modelled from the spec: transport `encrypt` uses the current nonce and
increments it, failing with `NonceExhausted` at `2 ^ 64 - 1` instead of
wrapping (§4.5). -/
def CipherState.encrypt (cs : CipherState) (ad pt : List Nat) :
    Except NoiseError (List Nat × CipherState) :=
  if cs.nonce = maxNonce then .error .NonceExhausted
  else .ok (aeadEncrypt cs.key cs.nonce ad pt, ⟨cs.key, cs.nonce + 1⟩)

/-- Modelled from the spec: transport `decrypt`, strict in-order (replay
window 0), failing closed with `DecryptFailure` on a tag mismatch (§4.5). -/
def CipherState.decrypt (cs : CipherState) (ad ct : List Nat) :
    Except NoiseError (List Nat × CipherState) :=
  if cs.nonce = maxNonce then .error .NonceExhausted
  else
    match aeadDecrypt cs.key cs.nonce ad ct with
    | some pt => .ok (pt, ⟨cs.key, cs.nonce + 1⟩)
    | none => .error .DecryptFailure

/-- Encrypt a sequence of messages, threading the CipherState. -/
def encryptSeq (cs : CipherState) (ad : List Nat) :
    List (List Nat) → Except NoiseError (List (List Nat) × CipherState)
  | [] => .ok ([], cs)
  | pt :: rest =>
      match cs.encrypt ad pt with
      | .error e => .error e
      | .ok (ct, cs') =>
          match encryptSeq cs' ad rest with
          | .error e => .error e
          | .ok (cts, cs'') => .ok (ct :: cts, cs'')

/-- Decrypt a sequence of messages, threading the CipherState. -/
def decryptSeq (cs : CipherState) (ad : List Nat) :
    List (List Nat) → Except NoiseError (List (List Nat) × CipherState)
  | [] => .ok ([], cs)
  | ct :: rest =>
      match cs.decrypt ad ct with
      | .error e => .error e
      | .ok (pt, cs') =>
          match decryptSeq cs' ad rest with
          | .error e => .error e
          | .ok (pts, cs'') => .ok (pt :: pts, cs'')

/-- The nonces a CipherState consumes while encrypting a message sequence
(stopping at exhaustion, where `encrypt` fails closed). -/
def encryptNonces (cs : CipherState) : List (List Nat) → List Nat
  | [] => []
  | _ :: rest =>
      if cs.nonce = maxNonce then []
      else cs.nonce :: encryptNonces ⟨cs.key, cs.nonce + 1⟩ rest

/-! ### SymmetricState -/

/-- Modelled from the spec: a SymmetricState owns a CipherState (absent
until the first `mixKey`), a running chaining key and a running handshake
hash (§3, §4.3). -/
structure SymmetricState where
  ck : Nat
  h : Nat
  cs : Option CipherState
deriving DecidableEq, Repr

/-- Modelled from the spec: `mixHash(data)` folds data into the running
transcript hash. -/
def SymmetricState.mixHash (ss : SymmetricState) (data : List Nat) : SymmetricState :=
  { ss with h := data.foldl hashMix ss.h }

/-- Modelled from the spec: `mixKey(inputKeyMaterial)` updates the chaining
key and derives a fresh CipherState key via the HKDF-style mix. -/
def SymmetricState.mixKey (ss : SymmetricState) (ikm : Nat) : SymmetricState :=
  { ss with ck := hkdfOut 1 ss.ck ikm, cs := some ⟨hkdfOut 2 ss.ck ikm, 0⟩ }

/-- Modelled from the spec: `encryptAndHash(plaintext)` — pass-through when
no key exists yet, otherwise AEAD with the transcript hash as associated
data; the ciphertext is folded into the hash either way. -/
def SymmetricState.encryptAndHash (ss : SymmetricState) (pt : List Nat) :
    Except NoiseError (List Nat × SymmetricState) :=
  match ss.cs with
  | none => .ok (pt, ss.mixHash pt)
  | some c =>
      match c.encrypt [ss.h] pt with
      | .error e => .error e
      | .ok (ct, c') => .ok (ct, { ss.mixHash ct with cs := some c' })

/-- Modelled from the spec: `decryptAndHash(ciphertext)`, the read-side
counterpart of `encryptAndHash`; the ciphertext is folded into the hash. -/
def SymmetricState.decryptAndHash (ss : SymmetricState) (ct : List Nat) :
    Except NoiseError (List Nat × SymmetricState) :=
  match ss.cs with
  | none => .ok (ct, ss.mixHash ct)
  | some c =>
      match c.decrypt [ss.h] ct with
      | .error e => .error e
      | .ok (pt, c') => .ok (pt, { ss.mixHash ct with cs := some c' })

/-- Modelled from the spec: `split()` derives the two independent transport
CipherStates (first for initiator→responder, second for the reverse) from
the final chaining key. -/
def SymmetricState.split (ss : SymmetricState) : CipherState × CipherState :=
  (⟨hkdfOut 1 ss.ck 0, 0⟩, ⟨hkdfOut 2 ss.ck 0, 0⟩)

/-! ### Pattern engine -/

/-- Handshake message tokens (§4.1). -/
inductive Token where
  | e | s | ee | es | se | ss | psk
deriving DecidableEq, Repr

/-- Modelled from the spec: a handshake pattern — whether the responder's
static key is known to the initiator before the first message, and the
ordered per-message token lists. -/
structure Pattern where
  preSharedRemoteStatic : Bool
  messages : List (List Token)
deriving DecidableEq, Repr

/-- The `Noise_XX` pattern. -/
def patternXX : Pattern :=
  ⟨false, [[.e], [.e, .ee, .s, .es], [.s, .se]]⟩

/-- The `Noise_IK` pattern. -/
def patternIK : Pattern :=
  ⟨true, [[.e, .es, .s, .ss], [.e, .ee, .se]]⟩

/-- Modelled from the spec: the Pattern Engine — a pure function from a
pattern name to its ordered, finite token-list sequence, failing with
`UnknownPattern` on an unrecognized name (§4.1). -/
def patternEngine (name : String) : Except NoiseError Pattern :=
  if name = "Noise_XX" then .ok patternXX
  else if name = "Noise_IK" then .ok patternIK
  else .error .UnknownPattern

/-! ### HandshakeState -/

/-- The two handshake roles. -/
inductive Role where
  | initiator | responder
deriving DecidableEq, Repr

/-- Modelled from the spec: a HandshakeState owns its role, the pattern's
message scripts, the index of the next message, the SymmetricState, the
local static/ephemeral private keys, the remote public keys once received,
and whether it has been closed by `split()` (§3, §4.4). -/
structure HandshakeState where
  role : Role
  messages : List (List Token)
  msgIndex : Nat
  sym : SymmetricState
  sPriv : Option Nat
  ePriv : Option Nat
  rs : Option Nat
  re : Option Nat
  closed : Bool
deriving DecidableEq, Repr

/-- Which role writes handshake message `i`: the initiator writes the
even-indexed messages, the responder the odd-indexed ones. -/
def writerOf (i : Nat) : Role :=
  if i % 2 = 0 then .initiator else .responder

/-- DH over an optional local private key and optional remote public key,
failing with `MissingKey` when either is absent. -/
def dhOpt (localPriv remotePub : Option Nat) : Except NoiseError Nat :=
  match localPriv, remotePub with
  | some a, some b => .ok (dh a b)
  | _, _ => .error .MissingKey

/-- The DH computation a party performs for a DH token, resolved by role:
e.g. for `es` the initiator pairs its ephemeral with the remote static,
while the responder pairs its static with the remote ephemeral. -/
def HandshakeState.dhFor (hs : HandshakeState) : Token → Except NoiseError Nat
  | .ee => dhOpt hs.ePriv hs.re
  | .ss => dhOpt hs.sPriv hs.rs
  | .es =>
      match hs.role with
      | .initiator => dhOpt hs.ePriv hs.rs
      | .responder => dhOpt hs.sPriv hs.re
  | .se =>
      match hs.role with
      | .initiator => dhOpt hs.sPriv hs.re
      | .responder => dhOpt hs.ePriv hs.rs
  | _ => .error .MissingKey

/-- Process one token on the writing side: `e`/`s` append the local public
key to the message and mix it into the hash; a DH token mixes the shared
secret into the key schedule; a missing key fails with `MissingKey` (§4.4). -/
def writeToken (hs : HandshakeState) : Token → Except NoiseError (List Nat × HandshakeState)
  | .e =>
      match hs.ePriv with
      | none => .error .MissingKey
      | some k => .ok ([pubkey k], { hs with sym := hs.sym.mixHash [pubkey k] })
  | .s =>
      match hs.sPriv with
      | none => .error .MissingKey
      | some k => .ok ([pubkey k], { hs with sym := hs.sym.mixHash [pubkey k] })
  | .psk => .error .MissingKey
  | t =>
      match hs.dhFor t with
      | .error e => .error e
      | .ok secret => .ok ([], { hs with sym := hs.sym.mixKey secret })

/-- Process one token on the reading side; for `e`/`s` the public key is
taken from the front of the message, stored as the remote key and mixed
into the hash; returns the unread remainder of the message. -/
def readToken (hs : HandshakeState) (msg : List Nat) :
    Token → Except NoiseError (List Nat × HandshakeState)
  | .e =>
      match msg with
      | [] => .error .DecryptFailure
      | k :: rest => .ok (rest, { hs with re := some k, sym := hs.sym.mixHash [k] })
  | .s =>
      match msg with
      | [] => .error .DecryptFailure
      | k :: rest => .ok (rest, { hs with rs := some k, sym := hs.sym.mixHash [k] })
  | .psk => .error .MissingKey
  | t =>
      match hs.dhFor t with
      | .error e => .error e
      | .ok secret => .ok (msg, { hs with sym := hs.sym.mixKey secret })

/-- Process a message's token list on the writing side, concatenating the
emitted key material. -/
def writeTokens (hs : HandshakeState) : List Token → Except NoiseError (List Nat × HandshakeState)
  | [] => .ok ([], hs)
  | t :: ts =>
      match writeToken hs t with
      | .error e => .error e
      | .ok (out, hs') =>
          match writeTokens hs' ts with
          | .error e => .error e
          | .ok (outs, hs'') => .ok (out ++ outs, hs'')

/-- Process a message's token list on the reading side, returning the
remaining (payload) part of the message. -/
def readTokens (hs : HandshakeState) (msg : List Nat) :
    List Token → Except NoiseError (List Nat × HandshakeState)
  | [] => .ok (msg, hs)
  | t :: ts =>
      match readToken hs msg t with
      | .error e => .error e
      | .ok (rest, hs') => readTokens hs' rest ts

/-- Modelled from the spec: `writeMessage(state, payload) → bytes` — fails
with `HandshakeComplete` after finalization or when the pattern is
exhausted, with `OutOfOrder` when it is not this party's turn; otherwise
processes the current message's tokens and appends the encrypted payload
(§4.4, §6). -/
def HandshakeState.writeMessage (hs : HandshakeState) (payload : List Nat) :
    Except NoiseError (List Nat × HandshakeState) :=
  if hs.closed then .error .HandshakeComplete
  else
    match hs.messages[hs.msgIndex]? with
    | none => .error .HandshakeComplete
    | some tokens =>
        if writerOf hs.msgIndex ≠ hs.role then .error .OutOfOrder
        else
          match writeTokens hs tokens with
          | .error e => .error e
          | .ok (out, hs') =>
              match hs'.sym.encryptAndHash payload with
              | .error e => .error e
              | .ok (ct, sym') =>
                  .ok (out ++ ct, { hs' with sym := sym', msgIndex := hs.msgIndex + 1 })

/-- Modelled from the spec: `readMessage(state, bytes) → payload` — fails
with `HandshakeComplete` after finalization or when the pattern is
exhausted, with `OutOfOrder` when the peer is not due to write; otherwise
consumes the current message's tokens and decrypts the payload (§4.4, §6). -/
def HandshakeState.readMessage (hs : HandshakeState) (msg : List Nat) :
    Except NoiseError (List Nat × HandshakeState) :=
  if hs.closed then .error .HandshakeComplete
  else
    match hs.messages[hs.msgIndex]? with
    | none => .error .HandshakeComplete
    | some tokens =>
        if writerOf hs.msgIndex = hs.role then .error .OutOfOrder
        else
          match readTokens hs msg tokens with
          | .error e => .error e
          | .ok (rest, hs') =>
              match hs'.sym.decryptAndHash rest with
              | .error e => .error e
              | .ok (pt, sym') =>
                  .ok (pt, { hs' with sym := sym', msgIndex := hs.msgIndex + 1 })

/-- The (send, receive) CipherState pair a party obtains from `split()`:
the SymmetricState's directional pair, ordered send-first for this party's
role. -/
def splitPair (hs : HandshakeState) : CipherState × CipherState :=
  match hs.role with
  | .initiator => hs.sym.split
  | .responder => (hs.sym.split.2, hs.sym.split.1)

/-- Modelled from the spec: `split()` — callable exactly once, after the
last pattern message; consumes the SymmetricState into the two directional
transport CipherStates (ordered send-first for this party's role) and
irreversibly closes the HandshakeState; a second call, like any use of a
closed state, fails with `HandshakeComplete` (§4.3, §4.4). -/
def HandshakeState.split (hs : HandshakeState) :
    Except NoiseError ((CipherState × CipherState) × HandshakeState) :=
  if hs.closed then .error .HandshakeComplete
  else if hs.msgIndex < hs.messages.length then .error .OutOfOrder
  else .ok (splitPair hs, { hs with closed := true })

/-- Modelled from the spec: `createHandshake(role, pattern, localKeys)` —
builds the initial HandshakeState; `rsInit` is the pre-known remote static
public key (for patterns such as IK) and `preMessage` the pre-message
public keys both sides fold into the initial transcript hash (§6). -/
def createHandshake (role : Role) (pat : Pattern) (sPriv ePriv : Nat)
    (rsInit : Option Nat) (preMessage : List Nat) : HandshakeState :=
  { role := role
    messages := pat.messages
    msgIndex := 0
    sym := SymmetricState.mixHash ⟨0, 0, none⟩ preMessage
    sPriv := some sPriv
    ePriv := some ePriv
    rs := rsInit
    re := none
    closed := false }

/-- Drive a handshake to completion, one pattern message per step: the
first state writes the current message with an empty payload and the
second reads it, then the two swap for the next message. -/
def runExchange : List (List Token) → HandshakeState → HandshakeState →
    Except NoiseError (HandshakeState × HandshakeState)
  | [], a, b => .ok (a, b)
  | _ :: rest, a, b =>
      match a.writeMessage [] with
      | .error e => .error e
      | .ok (msg, a') =>
          match b.readMessage msg with
          | .error e => .error e
          | .ok (_, b') => runExchange rest b' a'

/-- A complete exchange for a named pattern: create both states, run every
pattern message, and `split()` both sides, returning the initiator's and
the responder's (send, receive) CipherState pairs. -/
def runHandshakePattern (name : String) (si ei sr er : Nat) :
    Except NoiseError ((CipherState × CipherState) × (CipherState × CipherState)) :=
  match patternEngine name with
  | .error e => .error e
  | .ok pat =>
      let pre := if pat.preSharedRemoteStatic then [pubkey sr] else []
      let rsI : Option Nat := if pat.preSharedRemoteStatic then some (pubkey sr) else none
      let ini := createHandshake .initiator pat si ei rsI pre
      let resp := createHandshake .responder pat sr er none pre
      match runExchange pat.messages ini resp with
      | .error e => .error e
      | .ok (a, b) =>
          let x := if a.role = .initiator then a else b
          let y := if a.role = .initiator then b else a
          match x.split with
          | .error e => .error e
          | .ok (iPair, _) =>
              match y.split with
              | .error e => .error e
              | .ok (rPair, _) => .ok (iPair, rPair)

/-- Whether a completed exchange produced matching transport keys: the
initiator's send key is the responder's receive key and vice versa; a
failed exchange does not count as matching. -/
def transportKeysMatch :
    Except NoiseError ((CipherState × CipherState) × (CipherState × CipherState)) → Bool
  | .ok (i, r) => decide (i.1.key = r.2.key ∧ i.2.key = r.1.key)
  | .error _ => false

/-! ### Theorems about the transport CipherState -/

/-- C3: Round trip over a whole message sequence — decrypting, with a
matching CipherState, the ciphertexts produced by `encrypt` over any valid
nonce sequence returns the original plaintexts and the same final
CipherState. -/
theorem transport_roundtrip (cs : CipherState) (ad : List Nat)
    (msgs cts : List (List Nat)) (cs' : CipherState)
    (henc : encryptSeq cs ad msgs = .ok (cts, cs')) :
    decryptSeq cs ad cts = .ok (msgs, cs') := by
  induction msgs generalizing cs cts with
  | nil =>
      rw [encryptSeq] at henc
      cases henc
      rfl
  | cons pt rest ih =>
      simp only [encryptSeq, CipherState.encrypt] at henc
      by_cases hn : cs.nonce = maxNonce
      · rw [if_pos hn] at henc
        exact Except.noConfusion henc
      · rw [if_neg hn] at henc
        dsimp only at henc
        cases h2 : encryptSeq ⟨cs.key, cs.nonce + 1⟩ ad rest with
        | error e =>
            rw [h2] at henc
            exact Except.noConfusion henc
        | ok p =>
            obtain ⟨cts2, cs2⟩ := p
            rw [h2] at henc
            cases henc
            simp [decryptSeq, CipherState.decrypt, hn, aeadDecrypt_aeadEncrypt,
              ih ⟨cs.key, cs.nonce + 1⟩ cts2 h2]

/-- Witness for C3 at a concrete input. -/
theorem transport_roundtrip_witness :
    decryptSeq ⟨9, 0⟩ [4] [aeadEncrypt 9 0 [4] [1, 2], aeadEncrypt 9 1 [4] [3]] =
      .ok ([[1, 2], [3]], ⟨9, 2⟩) :=
  transport_roundtrip ⟨9, 0⟩ [4] [[1, 2], [3]] _ _ (by rfl)

/-- Every nonce a CipherState will consume is at least its current nonce. -/
theorem encryptNonces_le :
    ∀ (msgs : List (List Nat)) (cs : CipherState) (x : Nat),
      x ∈ encryptNonces cs msgs → cs.nonce ≤ x := by
  intro msgs
  induction msgs with
  | nil => intro cs x hx; simp [encryptNonces] at hx
  | cons m rest ih =>
      intro cs x hx
      rw [encryptNonces] at hx
      by_cases hn : cs.nonce = maxNonce
      · rw [if_pos hn] at hx; simp at hx
      · rw [if_neg hn] at hx
        rcases List.mem_cons.mp hx with h | h
        · omega
        · have := ih ⟨cs.key, cs.nonce + 1⟩ x h
          simp only at this
          omega

/-- The nonce trace of a CipherState is strictly increasing. -/
theorem encryptNonces_pairwise :
    ∀ (msgs : List (List Nat)) (cs : CipherState),
      (encryptNonces cs msgs).Pairwise (· < ·) := by
  intro msgs
  induction msgs with
  | nil => intro cs; simp [encryptNonces]
  | cons m rest ih =>
      intro cs
      rw [encryptNonces]
      by_cases hn : cs.nonce = maxNonce
      · simp [hn]
      · rw [if_neg hn]
        refine List.Pairwise.cons ?_ (ih ⟨cs.key, cs.nonce + 1⟩)
        intro x hx
        have := encryptNonces_le rest ⟨cs.key, cs.nonce + 1⟩ x hx
        simp only at this
        omega

/-- When a sequence of encryptions succeeds, the consumed nonces are
exactly the consecutive range starting at the initial nonce. -/
theorem encryptSeq_nonces (ad : List Nat) :
    ∀ (msgs : List (List Nat)) (cs : CipherState) (cts : List (List Nat))
      (cs' : CipherState), encryptSeq cs ad msgs = .ok (cts, cs') →
      encryptNonces cs msgs = List.range' cs.nonce msgs.length := by
  intro msgs
  induction msgs with
  | nil => intro cs cts cs' _; rfl
  | cons m rest ih =>
      intro cs cts cs' h
      simp only [encryptSeq, CipherState.encrypt] at h
      by_cases hn : cs.nonce = maxNonce
      · rw [if_pos hn] at h
        exact Except.noConfusion h
      · rw [if_neg hn] at h
        dsimp only at h
        cases h2 : encryptSeq ⟨cs.key, cs.nonce + 1⟩ ad rest with
        | error e =>
            rw [h2] at h
            exact Except.noConfusion h
        | ok p =>
            rw [encryptNonces, if_neg hn, List.length_cons, List.range'_succ]
            have := ih ⟨cs.key, cs.nonce + 1⟩ p.1 p.2 h2
            simp only at this
            rw [this]

/-- C4: Within one CipherState's lifetime no nonce is ever reused: the
trace of consumed nonces is strictly increasing, each successful `encrypt`
strictly increases the counter, and a successful encryption sequence uses
exactly the consecutive nonce range — so no (key, nonce) pair recurs. -/
theorem nonce_never_reused (cs : CipherState) (ad : List Nat)
    (msgs : List (List Nat)) :
    (encryptNonces cs msgs).Pairwise (· < ·) ∧
    (∀ pt ct cs', cs.encrypt ad pt = .ok (ct, cs') → cs.nonce < cs'.nonce) ∧
    (∀ cts cs', encryptSeq cs ad msgs = .ok (cts, cs') →
      encryptNonces cs msgs = List.range' cs.nonce msgs.length) := by
  refine ⟨encryptNonces_pairwise msgs cs, ?_, fun cts cs' h => encryptSeq_nonces ad msgs cs cts cs' h⟩
  intro pt ct cs' h
  rw [CipherState.encrypt] at h
  by_cases hn : cs.nonce = maxNonce
  · rw [if_pos hn] at h
    exact Except.noConfusion h
  · rw [if_neg hn] at h
    cases h
    simp

/-- Witness for C4 at a concrete input. -/
theorem nonce_never_reused_witness :
    (encryptNonces ⟨5, 0⟩ [[1], [2], [3]]).Pairwise (· < ·) ∧
    (⟨5, 0⟩ : CipherState).nonce < (⟨5, 1⟩ : CipherState).nonce ∧
    encryptNonces ⟨5, 0⟩ [[1], [2], [3]] = List.range' 0 3 :=
  ⟨(nonce_never_reused ⟨5, 0⟩ [] [[1], [2], [3]]).1,
   (nonce_never_reused ⟨5, 0⟩ [] [[1], [2], [3]]).2.1 [1]
     (aeadEncrypt 5 0 [] [1]) ⟨5, 1⟩ (by rfl),
   (nonce_never_reused ⟨5, 0⟩ [] [[1], [2], [3]]).2.2 _ _ (by rfl)⟩

/-- C5: When the 64-bit nonce counter stands at `2 ^ 64 - 1`, `encrypt`
fails with `NonceExhausted`; a successful `encrypt` implies the counter was
below the limit and moved to its successor under the same key — the counter
never silently wraps to reuse earlier nonce values. -/
theorem nonce_exhaustion_fails_closed (cs : CipherState) (ad pt : List Nat) :
    (cs.nonce = maxNonce → cs.encrypt ad pt = .error .NonceExhausted) ∧
    (∀ ct cs', cs.encrypt ad pt = .ok (ct, cs') →
      cs.nonce ≠ maxNonce ∧ cs'.nonce = cs.nonce + 1 ∧ cs'.key = cs.key) := by
  constructor
  · intro hn
    rw [CipherState.encrypt, if_pos hn]
  · intro ct cs' h
    rw [CipherState.encrypt] at h
    by_cases hn : cs.nonce = maxNonce
    · rw [if_pos hn] at h
      exact Except.noConfusion h
    · rw [if_neg hn] at h
      cases h
      exact ⟨hn, rfl, rfl⟩

/-- Witness for C5 at the exhausted counter. -/
theorem nonce_exhaustion_fails_closed_witness :
    CipherState.encrypt ⟨0, maxNonce⟩ [] [] = .error .NonceExhausted ∧
    CipherState.encrypt ⟨7, maxNonce⟩ [1] [2] = .error .NonceExhausted :=
  ⟨(nonce_exhaustion_fails_closed ⟨0, maxNonce⟩ [] []).1 rfl,
   (nonce_exhaustion_fails_closed ⟨7, maxNonce⟩ [1] [2]).1 rfl⟩

/-! ### Theorems about the HandshakeState lifecycle -/

/-- C6: `split()` is callable exactly once — on an open HandshakeState that
has consumed all pattern messages it produces the two directional
CipherStates and transitions the state to Closed, and every operation on a
closed state (`split`, `writeMessage`, `readMessage`) fails with
`HandshakeComplete`. -/
theorem split_exactly_once (hs : HandshakeState) (payload msg : List Nat) :
    (hs.closed = false → hs.messages.length ≤ hs.msgIndex →
      hs.split = .ok (splitPair hs, { hs with closed := true }) ∧
      ({ hs with closed := true } : HandshakeState).split = .error .HandshakeComplete) ∧
    (hs.closed = true →
      hs.split = .error .HandshakeComplete ∧
      hs.writeMessage payload = .error .HandshakeComplete ∧
      hs.readMessage msg = .error .HandshakeComplete) := by
  constructor
  · intro hcl hfin
    constructor
    · rw [HandshakeState.split, if_neg (by simp [hcl]), if_neg (Nat.not_lt.mpr hfin)]
    · rw [HandshakeState.split, if_pos rfl]
  · intro hcl
    exact ⟨by rw [HandshakeState.split, if_pos hcl],
      by rw [HandshakeState.writeMessage, if_pos hcl],
      by rw [HandshakeState.readMessage, if_pos hcl]⟩

/-- An open HandshakeState that has processed all three `Noise_XX` pattern
messages, ready to split. -/
def hsFinishedExample : HandshakeState :=
  { role := .initiator
    messages := patternXX.messages
    msgIndex := 3
    sym := ⟨0, 0, none⟩
    sPriv := some 1
    ePriv := some 2
    rs := none
    re := none
    closed := false }

/-- Witness for C6 at a concrete finished state. -/
theorem split_exactly_once_witness :
    hsFinishedExample.split =
      .ok (splitPair hsFinishedExample, { hsFinishedExample with closed := true }) ∧
    ({ hsFinishedExample with closed := true } : HandshakeState).split =
      .error .HandshakeComplete ∧
    ({ hsFinishedExample with closed := true } : HandshakeState).writeMessage [] =
      .error .HandshakeComplete ∧
    ({ hsFinishedExample with closed := true } : HandshakeState).readMessage [] =
      .error .HandshakeComplete :=
  ⟨((split_exactly_once hsFinishedExample [] []).1 rfl (by decide)).1,
   ((split_exactly_once hsFinishedExample [] []).1 rfl (by decide)).2,
   ((split_exactly_once { hsFinishedExample with closed := true } [] []).2 rfl).2.1,
   ((split_exactly_once { hsFinishedExample with closed := true } [] []).2 rfl).2.2⟩

/-- Writing message `i + 1` is the other party's turn. -/
theorem writerOf_succ (i : Nat) : writerOf (i + 1) ≠ writerOf i := by
  rcases Nat.mod_two_eq_zero_or_one i with h | h
  · have h1 : (i + 1) % 2 = 1 := by omega
    simp only [writerOf, h, h1]
    decide
  · have h1 : (i + 1) % 2 = 0 := by omega
    simp only [writerOf, h, h1]
    decide

/-- C7: Initiator and responder strictly alternate turns — a `writeMessage`
out of turn and a `readMessage` when it is one's own turn to write both
fail with `OutOfOrder`, and a successful write or read advances the message
index by one, handing the turn to the other party. -/
theorem turns_alternate (hs : HandshakeState) (payload msg : List Nat) :
    (∀ tokens, hs.closed = false → hs.messages[hs.msgIndex]? = some tokens →
      writerOf hs.msgIndex ≠ hs.role → hs.writeMessage payload = .error .OutOfOrder) ∧
    (∀ tokens, hs.closed = false → hs.messages[hs.msgIndex]? = some tokens →
      writerOf hs.msgIndex = hs.role → hs.readMessage msg = .error .OutOfOrder) ∧
    (∀ out hs', hs.writeMessage payload = .ok (out, hs') →
      writerOf hs.msgIndex = hs.role ∧ hs'.msgIndex = hs.msgIndex + 1 ∧
        writerOf hs'.msgIndex ≠ writerOf hs.msgIndex) ∧
    (∀ pt hs', hs.readMessage msg = .ok (pt, hs') →
      writerOf hs.msgIndex ≠ hs.role ∧ hs'.msgIndex = hs.msgIndex + 1 ∧
        writerOf hs'.msgIndex ≠ writerOf hs.msgIndex) := by
  refine ⟨?_, ?_, ?_, ?_⟩
  · intro tokens hcl htok hne
    rw [HandshakeState.writeMessage, if_neg (by simp [hcl]), htok]
    dsimp only
    rw [if_pos hne]
  · intro tokens hcl htok heq
    rw [HandshakeState.readMessage, if_neg (by simp [hcl]), htok]
    dsimp only
    rw [if_pos heq]
  · intro out hs' h
    rw [HandshakeState.writeMessage] at h
    split at h
    · exact Except.noConfusion h
    · split at h
      · exact Except.noConfusion h
      · split at h
        · exact Except.noConfusion h
        · rename_i hturn
          split at h
          · exact Except.noConfusion h
          · split at h
            · exact Except.noConfusion h
            · cases h
              exact ⟨not_not.mp hturn, rfl, writerOf_succ hs.msgIndex⟩
  · intro pt hs' h
    rw [HandshakeState.readMessage] at h
    split at h
    · exact Except.noConfusion h
    · split at h
      · exact Except.noConfusion h
      · split at h
        · exact Except.noConfusion h
        · rename_i hturn
          split at h
          · exact Except.noConfusion h
          · split at h
            · exact Except.noConfusion h
            · cases h
              exact ⟨hturn, rfl, writerOf_succ hs.msgIndex⟩

/-- Witness for C7: at the start of `Noise_XX` the responder may not write
and the initiator may not read. -/
theorem turns_alternate_witness :
    (createHandshake .responder patternXX 1 2 none []).writeMessage [] =
      .error .OutOfOrder ∧
    (createHandshake .initiator patternXX 1 2 none []).readMessage [] =
      .error .OutOfOrder :=
  ⟨(turns_alternate (createHandshake .responder patternXX 1 2 none []) [] []).1
      [Token.e] rfl rfl (by decide),
   (turns_alternate (createHandshake .initiator patternXX 1 2 none []) [] []).2.1
      [Token.e] rfl rfl (by decide)⟩

/-! ### Transport-key symmetry across a full exchange -/

/-- C8: For every pattern the Pattern Engine supports, a complete
initiator/responder exchange over its token sequence yields matching
transport keys: the initiator's send key is the responder's receive key
and vice versa. -/
theorem transport_key_symmetry (name : String) (pat : Pattern) (si ei sr er : Nat)
    (hpat : patternEngine name = .ok pat) :
    transportKeysMatch (runHandshakePattern name si ei sr er) = true := by
  by_cases hXX : name = "Noise_XX"
  · subst hXX
    simp [runHandshakePattern, patternEngine, patternXX, createHandshake, runExchange,
      HandshakeState.writeMessage, HandshakeState.readMessage, writeTokens, readTokens,
      writeToken, readToken, HandshakeState.dhFor, dhOpt, writerOf,
      SymmetricState.encryptAndHash, SymmetricState.decryptAndHash,
      SymmetricState.mixKey, SymmetricState.mixHash, SymmetricState.split, splitPair,
      HandshakeState.split, CipherState.encrypt, CipherState.decrypt, maxNonce,
      dh_pubkey, dhShared_comm, aeadDecrypt_aeadEncrypt, transportKeysMatch]
  · by_cases hIK : name = "Noise_IK"
    · subst hIK
      simp [runHandshakePattern, patternEngine, patternIK, createHandshake, runExchange,
        HandshakeState.writeMessage, HandshakeState.readMessage, writeTokens, readTokens,
        writeToken, readToken, HandshakeState.dhFor, dhOpt, writerOf,
        SymmetricState.encryptAndHash, SymmetricState.decryptAndHash,
        SymmetricState.mixKey, SymmetricState.mixHash, SymmetricState.split, splitPair,
        HandshakeState.split, CipherState.encrypt, CipherState.decrypt, maxNonce,
        dh_pubkey, dhShared_comm, aeadDecrypt_aeadEncrypt, transportKeysMatch]
    · rw [patternEngine, if_neg hXX, if_neg hIK] at hpat
      exact Except.noConfusion hpat

/-- Witness for C8: a concrete `Noise_XX` exchange with matching keys. -/
theorem transport_key_symmetry_witness :
    transportKeysMatch (runHandshakePattern "Noise_XX" 3 5 7 11) = true :=
  transport_key_symmetry "Noise_XX" patternXX 3 5 7 11 rfl

end Noise
